import Mathlib

/-!
Verification of the metadata normalization and serialization layer of the
RAG ingestion pipeline: the metadata flattener (src/utils/metadata_serializer.py),
the LLM response cleaner and extraction flow (src/metadata/llm_extractor.py),
the extraction schema (src/metadata/schema.py), and the chunk metadata
assembler / document-type inference (src/pipeline/ingestion.py).

Python values are embedded as the tagged union `Refuge.JValue` of well-formed
record-tree values (null, bool, int, float, string, sequence, mapping).
Python dicts are embedded as insertion-ordered association lists with unique
keys; `d[k] = v` is `dictInsert` (replace in place, else append) and
`d.update(e)` folds `dictInsert` over `e`, matching CPython dict semantics.
Floats are never computed with by this code, only carried and re-emitted, so
they are embedded opaquely by their decimal literal.
-/

namespace Refuge

/-- A well-formed Python record-tree value: mappings, ordered sequences,
scalars and null.  (The source's extra branches for `datetime` and Pydantic
models convert those inputs to strings / dicts before the same logic runs;
they are outside the well-formed tree shape the spec quantifies over.) -/
inductive JValue where
  | vnull : JValue
  | vbool : Bool → JValue
  | vint : Int → JValue
  | vfloat : String → JValue
  | vstr : String → JValue
  | vlist : List JValue → JValue
  | vdict : List (String × JValue) → JValue

/-- `d[k] = v` on an insertion-ordered dict: replace the value at the first
occurrence of `k`, keeping its position, else append the pair at the end. -/
def dictInsert (k : String) (v : JValue) : List (String × JValue) → List (String × JValue)
  | [] => [(k, v)]
  | (k₁, v₁) :: rest => if k₁ = k then (k, v) :: rest else (k₁, v₁) :: dictInsert k v rest

/-- `d.update(e)`: insert every pair of `e` into `d`, in order. -/
def dictUpdate (d e : List (String × JValue)) : List (String × JValue) :=
  e.foldl (fun acc kv => dictInsert kv.1 kv.2 acc) d

/-- First value bound to key `k` (Python `d[k]` / `d.get(k)` lookup). -/
def dictLookup (d : List (String × JValue)) (k : String) : Option JValue :=
  (d.find? (fun kv => kv.1 == k)).map Prod.snd

/-- Hex digit for `json.dumps` \uXXXX escapes. -/
def hexDigit (n : Nat) : Char :=
  if n < 10 then Char.ofNat (48 + n) else Char.ofNat (87 + n)

/-- One character escaped as stdlib `json.dumps` (ensure_ascii=True) renders
it inside a string literal.  (Astral characters would use surrogate pairs in
CPython; that refinement is irrelevant here, the flattener never inspects the
dumped text.) -/
def escChar (c : Char) : List Char :=
  if c = Char.ofNat 34 then ['\\', Char.ofNat 34]
  else if c = '\\' then ['\\', '\\']
  else if c = '\n' then ['\\', 'n']
  else if c = '\t' then ['\\', 't']
  else if c = '\r' then ['\\', 'r']
  else if c = Char.ofNat 8 then ['\\', 'b']
  else if c = Char.ofNat 12 then ['\\', 'f']
  else if c.toNat < 32 || c.toNat > 126 then
    ['\\', 'u', hexDigit (c.toNat / 4096 % 16), hexDigit (c.toNat / 256 % 16),
     hexDigit (c.toNat / 16 % 16), hexDigit (c.toNat % 16)]
  else [c]

mutual

/-- Characters emitted by stdlib `json.dumps` (default separators) for a
value; external collaborator modelled faithfully enough for this layer. -/
def jsonDumpsChars : JValue → List Char
  | .vnull => ['n', 'u', 'l', 'l']
  | .vbool true => ['t', 'r', 'u', 'e']
  | .vbool false => ['f', 'a', 'l', 's', 'e']
  | .vint n => (toString n).toList
  | .vfloat lit => lit.toList
  | .vstr s => Char.ofNat 34 :: (s.toList.flatMap escChar ++ [Char.ofNat 34])
  | .vlist items => '[' :: (jsonDumpsList items ++ [']'])
  | .vdict entries => Char.ofNat 123 :: (jsonDumpsObj entries ++ [Char.ofNat 125])

/-- Array items joined by `, `. -/
def jsonDumpsList : List JValue → List Char
  | [] => []
  | [x] => jsonDumpsChars x
  | x :: y :: rest => jsonDumpsChars x ++ [',', ' '] ++ jsonDumpsList (y :: rest)

/-- Object entries `"k": v` joined by `, `. -/
def jsonDumpsObj : List (String × JValue) → List Char
  | [] => []
  | [(k, v)] => jsonDumpsChars (.vstr k) ++ [':', ' '] ++ jsonDumpsChars v
  | (k, v) :: e :: rest =>
    jsonDumpsChars (.vstr k) ++ [':', ' '] ++ jsonDumpsChars v ++ [',', ' '] ++
      jsonDumpsObj (e :: rest)

end

/-- `json.dumps(value)`. -/
def jsonDumps (v : JValue) : String := String.mk (jsonDumpsChars v)

/-- Embeds `flatten_metadata`'s loop (metadata_serializer.py lines 86-128):
iterate the entries of one dict in order into the accumulated flat dict
`acc`.  Branches in source order: skip None, skip empty dict, recurse into a
dict merging the recursive result, skip empty list, JSON-dump a list, keep
primitives verbatim. -/
def flattenAux : List (String × JValue) → String → List (String × JValue) → List (String × JValue)
  | [], _, acc => acc
  | (key, value) :: rest, pre, acc =>
    let newKey := if pre = "" then key else pre ++ key
    match value with
    | .vnull => flattenAux rest pre acc
    | .vdict [] => flattenAux rest pre acc
    | .vdict es =>
      flattenAux rest pre (dictUpdate acc (flattenAux es (newKey ++ "_") []))
    | .vlist [] => flattenAux rest pre acc
    | .vlist items =>
      flattenAux rest pre (dictInsert newKey (.vstr (jsonDumps (.vlist items))) acc)
    | .vbool b => flattenAux rest pre (dictInsert newKey (.vbool b) acc)
    | .vint n => flattenAux rest pre (dictInsert newKey (.vint n) acc)
    | .vfloat f => flattenAux rest pre (dictInsert newKey (.vfloat f) acc)
    | .vstr s => flattenAux rest pre (dictInsert newKey (.vstr s) acc)
termination_by l _ _ => sizeOf l

/-- `flatten_metadata(metadata, prefix)` (metadata_serializer.py lines 72-128). -/
def flatten_metadata (metadata : List (String × JValue)) (pre : String) : List (String × JValue) :=
  flattenAux metadata pre []

/-- The four primitive scalar shapes the target store accepts. -/
def isScalar : JValue → Bool
  | .vstr _ => true
  | .vint _ => true
  | .vfloat _ => true
  | .vbool _ => true
  | _ => false

theorem mem_dictInsert {kv : String × JValue} {k : String} {v : JValue}
    {d : List (String × JValue)} (h : kv ∈ dictInsert k v d) : kv = (k, v) ∨ kv ∈ d := by
  induction d with
  | nil => simpa [dictInsert] using h
  | cons hd tl ih =>
    obtain ⟨k₁, v₁⟩ := hd
    rw [dictInsert] at h
    by_cases hk : k₁ = k
    · rw [if_pos hk] at h
      rcases List.mem_cons.mp h with h | h
      · exact Or.inl h
      · exact Or.inr (List.mem_cons_of_mem _ h)
    · rw [if_neg hk] at h
      rcases List.mem_cons.mp h with h | h
      · exact Or.inr (h ▸ List.mem_cons_self _ _)
      · rcases ih h with h' | h'
        · exact Or.inl h'
        · exact Or.inr (List.mem_cons_of_mem _ h')

theorem mem_dictUpdate {kv : String × JValue} {d e : List (String × JValue)}
    (h : kv ∈ dictUpdate d e) : kv ∈ d ∨ kv ∈ e := by
  induction e generalizing d with
  | nil => exact Or.inl h
  | cons hd tl ih =>
    rw [dictUpdate, List.foldl_cons] at h
    rcases ih h with h' | h'
    · rcases mem_dictInsert h' with h'' | h''
      · exact Or.inr (h'' ▸ List.mem_cons_self _ _)
      · exact Or.inl h''
    · exact Or.inr (List.mem_cons_of_mem _ h')

/-- Scalarness is preserved by a single insertion of a scalar value. -/
theorem dictInsert_scalar {k : String} {v : JValue} {d : List (String × JValue)}
    (hd : ∀ kv ∈ d, isScalar kv.2 = true) (hv : isScalar v = true) :
    ∀ kv ∈ dictInsert k v d, isScalar kv.2 = true := by
  intro kv hkv
  rcases mem_dictInsert hkv with h | h
  · simpa [h] using hv
  · exact hd kv h

/-- Scalarness is preserved by merging a scalar-valued dict. -/
theorem dictUpdate_scalar {d e : List (String × JValue)}
    (hd : ∀ kv ∈ d, isScalar kv.2 = true) (he : ∀ kv ∈ e, isScalar kv.2 = true) :
    ∀ kv ∈ dictUpdate d e, isScalar kv.2 = true := by
  intro kv hkv
  rcases mem_dictUpdate hkv with h | h
  · exact hd kv h
  · exact he kv h

theorem flattenAux_scalar :
    ∀ (n : Nat) (l : List (String × JValue)) (pre : String) (acc : List (String × JValue)),
      sizeOf l ≤ n →
      (∀ kv ∈ acc, isScalar kv.2 = true) →
      ∀ kv ∈ flattenAux l pre acc, isScalar kv.2 = true := by
  intro n
  induction n with
  | zero =>
    intro l pre acc hn
    cases l with
    | nil => intro hacc kv hkv; rw [flattenAux] at hkv; exact hacc kv hkv
    | cons hd tl => simp at hn
  | succ m ih =>
    intro l pre acc hn hacc kv hkv
    cases l with
    | nil => rw [flattenAux] at hkv; exact hacc kv hkv
    | cons hd tl =>
      obtain ⟨key, value⟩ := hd
      cases value with
      | vnull =>
        rw [flattenAux] at hkv
        exact ih tl pre acc (by simp at hn ⊢; omega) hacc kv hkv
      | vbool b =>
        rw [flattenAux] at hkv
        exact ih tl pre _ (by simp at hn ⊢; omega)
          (dictInsert_scalar hacc (by rfl)) kv hkv
      | vint i =>
        rw [flattenAux] at hkv
        exact ih tl pre _ (by simp at hn ⊢; omega)
          (dictInsert_scalar hacc (by rfl)) kv hkv
      | vfloat f =>
        rw [flattenAux] at hkv
        exact ih tl pre _ (by simp at hn ⊢; omega)
          (dictInsert_scalar hacc (by rfl)) kv hkv
      | vstr s =>
        rw [flattenAux] at hkv
        exact ih tl pre _ (by simp at hn ⊢; omega)
          (dictInsert_scalar hacc (by rfl)) kv hkv
      | vlist items =>
        cases items with
        | nil =>
          rw [flattenAux] at hkv
          exact ih tl pre acc (by simp at hn ⊢; omega) hacc kv hkv
        | cons a as =>
          simp only [flattenAux] at hkv
          exact ih tl pre _ (by simp at hn ⊢; omega)
            (dictInsert_scalar hacc (by rfl)) kv hkv
      | vdict es =>
        cases es with
        | nil =>
          rw [flattenAux] at hkv
          exact ih tl pre acc (by simp at hn ⊢; omega) hacc kv hkv
        | cons a as =>
          simp only [flattenAux] at hkv
          refine ih tl pre _ (by simp at hn ⊢; omega) ?_ kv hkv
          refine dictUpdate_scalar hacc ?_
          exact ih (a :: as) _ [] (by simp at hn ⊢; omega) (by simp)

/-- A scalar value is neither null nor a mapping nor a sequence. -/
theorem scalar_shapes (v : JValue) (h : isScalar v = true) :
    v ≠ .vnull ∧ (∀ es, v ≠ .vdict es) ∧ ∀ items, v ≠ .vlist items := by
  cases v <;> simp_all [isScalar]

/-- Inserting a fresh key appends the pair at the end. -/
theorem dictInsert_append {k : String} {v : JValue} {d : List (String × JValue)}
    (h : k ∉ d.map Prod.fst) : dictInsert k v d = d ++ [(k, v)] := by
  induction d with
  | nil => rfl
  | cons hd tl ih =>
    obtain ⟨k₁, v₁⟩ := hd
    simp only [List.map_cons, List.mem_cons] at h
    push_neg at h
    rw [dictInsert, if_neg (fun hh => h.1 hh.symm), ih h.2, List.cons_append]

/-- Flattening a dict of scalars with pairwise-distinct keys, all fresh for
the accumulator, appends its entries unchanged. -/
theorem flattenAux_flat_append :
    ∀ (d acc : List (String × JValue)),
      (∀ kv ∈ d, isScalar kv.2 = true) →
      (d.map Prod.fst).Nodup →
      (∀ k ∈ d.map Prod.fst, k ∉ acc.map Prod.fst) →
      flattenAux d "" acc = acc ++ d := by
  intro d
  induction d with
  | nil => intro acc _ _ _; rw [flattenAux, List.append_nil]
  | cons hd tl ih =>
    intro acc hsc hnd hdisj
    obtain ⟨k, v⟩ := hd
    have hkacc : k ∉ acc.map Prod.fst := hdisj k (by simp)
    have hv : isScalar v = true := hsc (k, v) (List.mem_cons_self _ _)
    have hnd0 : (k :: tl.map Prod.fst).Nodup := by simpa using hnd
    have hnd' : (tl.map Prod.fst).Nodup := (List.nodup_cons.mp hnd0).2
    have hknotl : k ∉ tl.map Prod.fst := (List.nodup_cons.mp hnd0).1
    have hdisj' : ∀ k' ∈ tl.map Prod.fst, k' ∉ (acc ++ [(k, v)]).map Prod.fst := by
      intro k' hk'
      simp only [List.map_append, List.mem_append, List.map_cons, List.map_nil,
        List.mem_singleton]
      push_neg
      refine ⟨hdisj k' (by simp [hk']), fun hkk => hknotl (hkk ▸ hk')⟩
    have step : ∀ rest : List (String × JValue),
        rest = dictInsert k v acc → flattenAux tl "" rest = acc ++ (k, v) :: tl := by
      intro rest hrest
      rw [hrest, dictInsert_append hkacc, ih (acc ++ [(k, v)])
        (fun kv hkv => hsc kv (List.mem_cons_of_mem _ hkv)) hnd' hdisj',
        List.append_assoc, List.singleton_append]
    cases v with
    | vbool b => rw [flattenAux]; exact step _ (by simp)
    | vint n => rw [flattenAux]; exact step _ (by simp)
    | vfloat f => rw [flattenAux]; exact step _ (by simp)
    | vstr s => rw [flattenAux]; exact step _ (by simp)
    | vnull => simp [isScalar] at hv
    | vlist items => simp [isScalar] at hv
    | vdict es => simp [isScalar] at hv

/-- C1: every value of the mapping `flatten_metadata` returns is one of
string/integer/float/boolean — never null, a mapping, or a sequence. -/
theorem flatten_metadata_values_scalar (metadata : List (String × JValue)) (pre : String) :
    ∀ kv ∈ flatten_metadata metadata pre, isScalar kv.2 = true := by
  intro kv hkv
  exact flattenAux_scalar (sizeOf metadata) metadata pre [] (le_refl _) (by simp) kv hkv

/-- Witness for C1 at a concrete mapping and a concrete member of its
flattening. -/
theorem flatten_metadata_values_scalar_wit :
    ("a", JValue.vstr "x") ∈ flatten_metadata [("a", JValue.vstr "x")] "" ∧
    isScalar (("a", JValue.vstr "x") : String × JValue).2 = true := by
  have hm : ("a", JValue.vstr "x") ∈ flatten_metadata [("a", JValue.vstr "x")] "" := by
    simp [flatten_metadata, flattenAux, dictInsert]
  exact ⟨hm, flatten_metadata_values_scalar _ "" _ hm⟩

/-- C2: flatten_metadata is a total function on well-formed record trees —
it is defined (returns a value, there is no error path) on every input, and
no entry of the result is null-, mapping- or sequence-valued. -/
theorem flatten_metadata_total_no_nested (metadata : List (String × JValue)) (pre : String) :
    ∃ flat, flatten_metadata metadata pre = flat ∧
      ∀ kv ∈ flat, kv.2 ≠ .vnull ∧ (∀ es, kv.2 ≠ .vdict es) ∧
        ∀ items, kv.2 ≠ .vlist items := by
  refine ⟨flatten_metadata metadata pre, rfl, fun kv hkv => ?_⟩
  exact scalar_shapes kv.2
    (flattenAux_scalar (sizeOf metadata) metadata pre [] (le_refl _) (by simp) kv hkv)

/-- C8: flattening an already-flat mapping (all values scalar, keys pairwise
distinct as in a Python dict) returns it unchanged — no keys renamed, no
values altered. -/
theorem flatten_idempotent_on_flat (d : List (String × JValue))
    (hsc : ∀ kv ∈ d, isScalar kv.2 = true) (hnd : (d.map Prod.fst).Nodup) :
    flatten_metadata d "" = d := by
  have h := flattenAux_flat_append d [] hsc hnd (by simp)
  simpa [flatten_metadata] using h

/-- Witness for C8 at a concrete flat mapping. -/
theorem flatten_idempotent_on_flat_wit :
    (∀ kv ∈ ([("a", JValue.vstr "x"), ("b", JValue.vint 2), ("ok", JValue.vbool true)] :
        List (String × JValue)), isScalar kv.2 = true) ∧
    (([("a", JValue.vstr "x"), ("b", JValue.vint 2), ("ok", JValue.vbool true)] :
        List (String × JValue)).map Prod.fst).Nodup ∧
    flatten_metadata [("a", JValue.vstr "x"), ("b", JValue.vint 2), ("ok", JValue.vbool true)] "" =
      [("a", JValue.vstr "x"), ("b", JValue.vint 2), ("ok", JValue.vbool true)] :=
  ⟨by decide, by decide,
    flatten_idempotent_on_flat _ (by decide) (by decide)⟩

/-- The collision example: a top-level key `a_b` and the nested path
`a` → `b` flatten to the same output key. -/
def exCollision : List (String × JValue) :=
  [("a_b", .vint 1), ("a", .vdict [("b", .vint 2)])]

/-- C10: flattened key construction is not injective: in `exCollision` the
top-level entry `a_b ↦ 1` and the nested path `a.b ↦ 2` collide on the
output key `a_b`, and the later-iterated entry's value 2 silently wins while
the earlier value 1 is lost. -/
theorem flatten_key_collision_last_wins :
    flatten_metadata exCollision "" = [("a_b", JValue.vint 2)] ∧
    dictLookup exCollision "a_b" = some (JValue.vint 1) ∧
    dictLookup [("b", JValue.vint 2)] "b" = some (JValue.vint 2) := by
  refine ⟨?_, rfl, rfl⟩
  simp [exCollision, flatten_metadata, flattenAux, dictUpdate, dictInsert]

/-! ### Response cleaner (llm_extractor.py, `_clean_response`, lines 90-120)

The cleaner operates on raw text; it is embedded over `List Char`.  The
special characters double-quote, backtick and braces are written via
`Char.ofNat` (34, 96, 123, 125). -/

/-- Python whitespace as matched by `str.strip()` and regex `\s` (ASCII
subset; this code never meets non-ASCII whitespace). -/
def pyWs (c : Char) : Bool :=
  c = ' ' || c = '\t' || c = '\n' || c = '\r' || c = Char.ofNat 11 || c = Char.ofNat 12

/-- `str.strip()`. -/
def pyStrip (s : List Char) : List Char :=
  ((s.dropWhile pyWs).reverse.dropWhile pyWs).reverse

/-- Boolean prefix test on character lists. -/
def isPre : List Char → List Char → Bool
  | [], _ => true
  | _ :: _, [] => false
  | a :: as, b :: bs => a = b && isPre as bs

/-- Index of the first occurrence of `pat` as a contiguous substring of `s`
(Python `str.find` generalized to substrings), if any. -/
def findSub : List Char → List Char → Option Nat
  | [], pat => if pat.isEmpty then some 0 else none
  | a :: rest, pat =>
    if isPre pat (a :: rest) then some 0 else (findSub rest pat).map (· + 1)

/-- `response.find(c)`: index of the first occurrence of a character. -/
def strFind : List Char → Char → Option Nat
  | [], _ => none
  | a :: rest, c => if a = c then some 0 else (strFind rest c).map (· + 1)

/-- `response.rfind(c)`: index of the last occurrence of a character. -/
def strRfind : List Char → Char → Option Nat
  | [], _ => none
  | a :: rest, c =>
    match strRfind rest c with
    | some i => some (i + 1)
    | none => if a = c then some 0 else none

/-- The fenced-code-block pass (lines 102-107): if the text contains a
triple-backtick fence, `re.search` with pattern backtick-fence, optional
`json` tag, lazy body, closing fence (DOTALL) extracts the first fenced
region, which is then stripped; if no closing fence exists the text is left
unchanged.  The regex's leftmost match opens at the first fence and closes
at the next fence; its two lazy/greedy `\s*` gaps are absorbed by the
`.strip()` applied to the captured group. -/
def fence_extract (s : List Char) : List Char :=
  match findSub s [Char.ofNat 96, Char.ofNat 96, Char.ofNat 96] with
  | none => s
  | some i =>
    let afterOpen := s.drop (i + 3)
    let afterTag := if isPre ['j', 's', 'o', 'n'] afterOpen then afterOpen.drop 4 else afterOpen
    match findSub afterTag [Char.ofNat 96, Char.ofNat 96, Char.ofNat 96] with
    | some j => pyStrip (afterTag.take j)
    | none => s

/-- The brace-slicing pass (lines 109-114): find the first `{` and the last
`}`; if both exist and the closing index is after the opening one, slice to
`response[start:end+1]`; otherwise leave the text unchanged. -/
def brace_extract (s : List Char) : List Char :=
  match strFind s (Char.ofNat 123), strRfind s (Char.ofNat 125) with
  | some st, some en => if st < en then (s.drop st).take (en + 1 - st) else s
  | some _, none => s
  | none, _ => s

/-- The quoted-null pattern `"null"` (six characters, quotes included). -/
def qnull : List Char := [Char.ofNat 34, 'n', 'u', 'l', 'l', Char.ofNat 34]

/-- Match of regex `\s*"null"` at the head of `s` (the tail of an occurrence
of `:\s*"null"`): consume the whitespace run and the quoted token, returning
the remainder, or `none` when the pattern is not there. -/
def consumeWsNull (s : List Char) : Option (List Char) :=
  let t := s.dropWhile pyWs
  if isPre qnull t then some (t.drop 6) else none

theorem dropWhile_length_le (p : Char → Bool) (l : List Char) :
    (l.dropWhile p).length ≤ l.length := by
  induction l with
  | nil => simp [List.dropWhile]
  | cons a as ih =>
    rw [List.dropWhile]
    cases p a <;> simp <;> omega

theorem consumeWsNull_length {s t : List Char} (h : consumeWsNull s = some t) :
    t.length ≤ s.length := by
  rw [consumeWsNull] at h
  split at h
  · cases h
    calc ((s.dropWhile pyWs).drop 6).length ≤ (s.dropWhile pyWs).length :=
          by rw [List.length_drop]; omega
      _ ≤ s.length := dropWhile_length_le _ _
  · cases h

/-- The null-string fix (lines 116-118): `re.sub` of `:\s*"null"` by
`: null`, scanning left to right with non-overlapping matches. -/
def null_string_fix : List Char → List Char
  | [] => []
  | c :: rest =>
    if c = ':' then
      match h : consumeWsNull rest with
      | some rest₂ => ':' :: ' ' :: 'n' :: 'u' :: 'l' :: 'l' :: null_string_fix rest₂
      | none => ':' :: null_string_fix rest
    else c :: null_string_fix rest
termination_by s => s.length
decreasing_by
  · have := consumeWsNull_length h
    simp
    omega
  · simp
  · simp

/-- Whether the text still contains an occurrence of `:\s*"null"`. -/
def hasNullPattern : List Char → Bool
  | [] => false
  | c :: rest => (c = ':' && (consumeWsNull rest).isSome) || hasNullPattern rest

/-- `_clean_response` (lines 90-120): strip, fenced-block extraction, brace
slicing, then the quoted-null fix, in source order. -/
def clean_response (s : List Char) : List Char :=
  null_string_fix (brace_extract (fence_extract (pyStrip s)))

theorem pyWs_colon : pyWs ':' = false := by decide

/-- Whitespace-stripping commutes with the null-fix: the fix copies
whitespace verbatim and never emits a whitespace head character. -/
theorem nsf_dropWhile (s : List Char) :
    (null_string_fix s).dropWhile pyWs = null_string_fix (s.dropWhile pyWs) := by
  induction s with
  | nil => simp [null_string_fix]
  | cons c r ih =>
    by_cases hc : c = ':'
    · subst hc
      cases hcw : consumeWsNull r with
      | some r₂ =>
        rw [null_string_fix, if_pos rfl, hcw]
        rw [List.dropWhile_cons_of_neg (by simp [pyWs]),
          List.dropWhile_cons_of_neg (by simp [pyWs]), null_string_fix, if_pos rfl, hcw]
      | none =>
        rw [null_string_fix, if_pos rfl, hcw]
        rw [List.dropWhile_cons_of_neg (by simp [pyWs]),
          List.dropWhile_cons_of_neg (by simp [pyWs]), null_string_fix, if_pos rfl, hcw]
    · by_cases hws : pyWs c
      · have h1 : ¬ (pyWs ':' = true) := by decide
        rw [null_string_fix, if_neg hc, List.dropWhile_cons_of_pos hws,
          List.dropWhile_cons_of_pos hws, ih]
      · rw [null_string_fix, if_neg hc, List.dropWhile_cons_of_neg hws,
          List.dropWhile_cons_of_neg hws, null_string_fix, if_neg hc]

/-- A colon-free pattern that prefixes the fixed text already prefixed the
original text: the fix only rewrites at a colon, and both rewrite branches
emit a colon first. -/
theorem isPre_nsf_reflect :
    ∀ (p s : List Char), (∀ a ∈ p, a ≠ ':') →
      isPre p (null_string_fix s) = true → isPre p s = true := by
  intro p
  induction p with
  | nil => intro s _ _; rfl
  | cons a p₂ ih =>
    intro s hp h
    cases s with
    | nil => simp [null_string_fix, isPre] at h
    | cons c r =>
      by_cases hc : c = ':'
      · subst hc
        cases hcw : consumeWsNull r with
        | some r₂ =>
          rw [null_string_fix, if_pos rfl, hcw, isPre, Bool.and_eq_true] at h
          exact absurd (of_decide_eq_true h.1) (hp a (List.mem_cons_self _ _))
        | none =>
          rw [null_string_fix, if_pos rfl, hcw, isPre, Bool.and_eq_true] at h
          exact absurd (of_decide_eq_true h.1) (hp a (List.mem_cons_self _ _))
      · rw [null_string_fix, if_neg hc, isPre, Bool.and_eq_true] at h
        rw [isPre, Bool.and_eq_true]
        exact ⟨h.1, ih r (fun x hx => hp x (List.mem_cons_of_mem _ hx)) h.2⟩

theorem qnull_colon_free : ∀ a ∈ qnull, a ≠ ':' := by decide

/-- Where the original text had no `\s*"null"` match, the fixed text has
none either. -/
theorem consumeWsNull_none_nsf {s : List Char} (h : consumeWsNull s = none) :
    consumeWsNull (null_string_fix s) = none := by
  rw [consumeWsNull] at h ⊢
  split at h
  · cases h
  · next hpre =>
    rw [if_neg ?_]
    intro hpre'
    rw [nsf_dropWhile] at hpre'
    exact hpre (isPre_nsf_reflect qnull _ qnull_colon_free hpre')

/-- After the null-fix pass, no occurrence of `:\s*"null"` remains: every
occurrence was replaced. -/
theorem nsf_no_pattern :
    ∀ (n : Nat) (s : List Char), s.length ≤ n →
      hasNullPattern (null_string_fix s) = false := by
  intro n
  induction n with
  | zero =>
    intro s hs
    rw [List.length_eq_zero.mp (Nat.le_zero.mp hs), null_string_fix]
    rfl
  | succ m ih =>
    intro s hs
    cases s with
    | nil => rw [null_string_fix]; rfl
    | cons c r =>
      simp only [List.length_cons] at hs
      by_cases hc : c = ':'
      · subst hc
        cases hcw : consumeWsNull r with
        | some r₂ =>
          rw [null_string_fix, if_pos rfl, hcw]
          have hr₂ : r₂.length ≤ m := le_trans (consumeWsNull_length hcw) (by omega)
          simp only [hasNullPattern, ih r₂ hr₂, Bool.or_false]
          simp [consumeWsNull, qnull, isPre, pyWs, List.dropWhile]
        | none =>
          rw [null_string_fix, if_pos rfl, hcw]
          simp only [hasNullPattern, ih r (by omega), Bool.or_false,
            consumeWsNull_none_nsf hcw]
          simp
      · rw [null_string_fix, if_neg hc]
        simp only [hasNullPattern, ih r (by omega), Bool.or_false]
        simp [hc]

/-- A text with no occurrence of `:\s*"null"` passes through unchanged. -/
theorem nsf_id_of_no_pattern :
    ∀ s : List Char, hasNullPattern s = false → null_string_fix s = s := by
  intro s
  induction s with
  | nil => intro _; rw [null_string_fix]
  | cons c r ih =>
    intro h
    rw [hasNullPattern, Bool.or_eq_false_iff, Bool.and_eq_false_iff] at h
    by_cases hc : c = ':'
    · subst hc
      have hnone : consumeWsNull r = none := by
        rcases h.1 with h1 | h1
        · simp at h1
        · exact Option.not_isSome_iff_eq_none.mp (by simp [h1])
      rw [null_string_fix, if_pos rfl, hnone, ih h.2]
    · rw [null_string_fix, if_neg hc, ih h.2]

/-- The raw model text `{"a": "null"}`. -/
def exNullStr : List Char :=
  [Char.ofNat 123, Char.ofNat 34, 'a', Char.ofNat 34, ':', ' ',
   Char.ofNat 34, 'n', 'u', 'l', 'l', Char.ofNat 34, Char.ofNat 125]

/-- The cleaned text `{"a": null}`. -/
def exNullCleaned : List Char :=
  [Char.ofNat 123, Char.ofNat 34, 'a', Char.ofNat 34, ':', ' ',
   'n', 'u', 'l', 'l', Char.ofNat 125]

/-- C6: the cleaner's null-string pass replaces every occurrence of
colon + whitespace + quoted `"null"` (after the pass no occurrence remains),
leaves any text without such an occurrence unchanged (in particular
legitimate strings merely containing `null` inside other content never form
the pattern, whose closing quote must follow `null` immediately), and cleans
the input `{"a": "null"}` to `{"a": null}`. -/
theorem cleaner_null_string_fix_spec :
    (∀ s : List Char, hasNullPattern (null_string_fix s) = false) ∧
    (∀ s : List Char, hasNullPattern s = false → null_string_fix s = s) ∧
    clean_response exNullStr = exNullCleaned := by
  refine ⟨fun s => nsf_no_pattern s.length s (le_refl _), nsf_id_of_no_pattern, ?_⟩
  simp [clean_response, exNullStr, exNullCleaned, pyStrip, fence_extract, brace_extract,
    null_string_fix, consumeWsNull, qnull, findSub, strFind, strRfind, isPre, pyWs]

/-- Witness for C6's conditional part at concrete inputs: `"a:nullify"` has
no colon-quoted-null occurrence and passes through the fix unchanged. -/
theorem cleaner_null_string_fix_spec_wit :
    hasNullPattern ['a', ':', 'n', 'u', 'l', 'l', 'i', 'f', 'y'] = false ∧
    null_string_fix ['a', ':', 'n', 'u', 'l', 'l', 'i', 'f', 'y'] =
      ['a', ':', 'n', 'u', 'l', 'l', 'i', 'f', 'y'] :=
  ⟨by decide, cleaner_null_string_fix_spec.2.1 _ (by decide)⟩

/-- C7: when the (stripped, fence-extracted) text has a first `{` at index
`st` and a last `}` at index `en` with `st < en`, the cleaner slices to
exactly that inclusive span, discarding everything before `st` and after
`en`; when either brace is missing, or the last `}` is not after the first
`{`, the text is left unsliced. -/
theorem cleaner_brace_extraction_spec :
    (∀ (s : List Char) (st en : Nat),
      strFind s (Char.ofNat 123) = some st →
      strRfind s (Char.ofNat 125) = some en → st < en →
      brace_extract s = (s.drop st).take (en + 1 - st) ∧
      s = s.take st ++ brace_extract s ++ s.drop (en + 1)) ∧
    (∀ s : List Char, strFind s (Char.ofNat 123) = none → brace_extract s = s) ∧
    (∀ s : List Char, strRfind s (Char.ofNat 125) = none → brace_extract s = s) ∧
    (∀ (s : List Char) (st en : Nat),
      strFind s (Char.ofNat 123) = some st →
      strRfind s (Char.ofNat 125) = some en → ¬ st < en →
      brace_extract s = s) := by
  refine ⟨?_, ?_, ?_, ?_⟩
  · intro s st en h1 h2 h3
    have heq : brace_extract s = (s.drop st).take (en + 1 - st) := by
      rw [brace_extract, h1, h2]
      simp [h3]
    refine ⟨heq, ?_⟩
    rw [heq]
    have hdrop : s.drop (en + 1) = (s.drop st).drop (en + 1 - st) := by
      rw [List.drop_drop]
      congr 1
      omega
    calc s = s.take st ++ s.drop st := (List.take_append_drop st s).symm
      _ = s.take st ++ ((s.drop st).take (en + 1 - st) ++ (s.drop st).drop (en + 1 - st)) :=
          congrArg (s.take st ++ ·) (List.take_append_drop (en + 1 - st) (s.drop st)).symm
      _ = s.take st ++ (s.drop st).take (en + 1 - st) ++ s.drop (en + 1) := by
          rw [hdrop, List.append_assoc]
  · intro s h
    rw [brace_extract, h]
  · intro s h
    rw [brace_extract, h]
    cases strFind s (Char.ofNat 123) <;> rfl
  · intro s st en h1 h2 h3
    rw [brace_extract, h1, h2]
    simp [h3]

/-- Witness for C7 at concrete inputs: `a{b}c` slices to `{b}`, and `abc`
(no braces) is left unchanged. -/
theorem cleaner_brace_extraction_spec_wit :
    strFind ['a', Char.ofNat 123, 'b', Char.ofNat 125, 'c'] (Char.ofNat 123) = some 1 ∧
    strRfind ['a', Char.ofNat 123, 'b', Char.ofNat 125, 'c'] (Char.ofNat 125) = some 3 ∧
    brace_extract ['a', Char.ofNat 123, 'b', Char.ofNat 125, 'c'] =
      ((['a', Char.ofNat 123, 'b', Char.ofNat 125, 'c'] : List Char).drop 1).take 3 ∧
    brace_extract ['a', 'b', 'c'] = ['a', 'b', 'c'] :=
  ⟨by decide, by decide,
    (cleaner_brace_extraction_spec.1 _ 1 3 (by decide) (by decide) (by decide)).1,
    cleaner_brace_extraction_spec.2.1 _ (by decide)⟩

/-! ### Document-type inference (ingestion.py, `_infer_document_type`,
lines 234-255) -/

/-- Case-insensitive containment is `word in text_lower`; this is plain
substring containment, the lowering happens once on the text. -/
def containsSub (pat t : List Char) : Bool := (findSub t pat).isSome

/-- `_infer_document_type`: lowercase the text, then check the four keyword
buckets in priority order, first match winning, else `unknown`. -/
def infer_document_type (text : List Char) : String :=
  let textLower := text.map Char.toLower
  if containsSub "brochure".toList textLower ||
      containsSub "services offered".toList textLower then "brochure"
  else if containsSub "guide".toList textLower || containsSub "how to".toList textLower ||
      containsSub "step by step".toList textLower then "guide"
  else if containsSub "policy".toList textLower || containsSub "regulation".toList textLower ||
      containsSub "law".toList textLower then "policy"
  else if containsSub "flyer".toList textLower ||
      containsSub "announcement".toList textLower then "flyer"
  else "unknown"

/-- No trigger of any bucket occurs in the lowered text. -/
def noDocTypeTrigger (textLower : List Char) : Bool :=
  !(containsSub "brochure".toList textLower ||
    containsSub "services offered".toList textLower ||
    containsSub "guide".toList textLower || containsSub "how to".toList textLower ||
    containsSub "step by step".toList textLower ||
    containsSub "policy".toList textLower || containsSub "regulation".toList textLower ||
    containsSub "law".toList textLower ||
    containsSub "flyer".toList textLower || containsSub "announcement".toList textLower)

/-- C9: document-type inference checks the buckets in priority order
brochure → guide → policy → flyer on the lowercased text, first matching
bucket winning: a text containing "guide" (hence possibly also "policy")
with no brochure trigger classifies as guide, and a text with no trigger at
all classifies as unknown. -/
theorem infer_document_type_priority_spec :
    (∀ text : List Char,
      containsSub "brochure".toList (text.map Char.toLower) = false →
      containsSub "services offered".toList (text.map Char.toLower) = false →
      containsSub "guide".toList (text.map Char.toLower) = true →
      infer_document_type text = "guide") ∧
    (∀ text : List Char,
      noDocTypeTrigger (text.map Char.toLower) = true →
      infer_document_type text = "unknown") := by
  constructor
  · intro text h1 h2 h3
    simp_all [infer_document_type]
  · intro text h
    simp only [noDocTypeTrigger, Bool.not_eq_true', Bool.or_eq_false_iff] at h
    obtain ⟨⟨⟨⟨⟨⟨⟨⟨⟨hbr, hso⟩, hg⟩, hht⟩, hsb⟩, hp⟩, hr⟩, hl⟩, hf⟩, ha⟩ := h
    simp_all [infer_document_type]

/-- Witness for C9: `This GUIDE explains the housing policy` (case-varied,
guide and policy triggers, no brochure triggers) classifies as guide, and
`hello out there` classifies as unknown. -/
theorem infer_document_type_priority_spec_wit :
    containsSub "policy".toList
      (("This GUIDE explains the housing policy".toList).map Char.toLower) = true ∧
    infer_document_type "This GUIDE explains the housing policy".toList = "guide" ∧
    infer_document_type "hello out there".toList = "unknown" :=
  ⟨by decide,
    infer_document_type_priority_spec.1 _ (by decide) (by decide) (by decide),
    infer_document_type_priority_spec.2 _ (by decide)⟩

/-! ### Extraction schema (schema.py) and the extraction flow
(llm_extractor.py, `extract`, lines 122-165)

Floats appear only as opaque payloads (coordinate values); they are carried
by their decimal literal, as in `JValue.vfloat`. -/

/-- `ContactInfo` (schema.py lines 9-13). -/
structure ContactInfo where
  phone : Option String := none
  email : Option String := none
  website : Option String := none

/-- `Location` (schema.py lines 15-22). -/
structure Location where
  address : Option String := none
  city : Option String := none
  state : Option String := none
  zip : Option String := none
  coordinates : Option (List (String × String)) := none
  neighborhood : Option String := none

/-- `ServiceDetails` (schema.py lines 24-31); `hours` is an arbitrary
mapping. -/
structure ServiceDetails where
  hours : Option (List (String × JValue)) := none
  capacity : Option String := none
  eligibility : Option String := none
  cost : Option String := none
  languages : Option (List String) := none
  accessibility : Option String := none

/-- `ExtractedMetadata` (schema.py lines 33-107): every field independently
optional, default null. -/
structure ExtractedMetadata where
  related_service_id : Option Int := none
  related_resource_id : Option Int := none
  mentioned_services : Option (List String) := none
  mentioned_organizations : Option (List String) := none
  mentioned_locations : Option (List String) := none
  service_type : Option String := none
  city : Option String := none
  neighborhood : Option String := none
  contact : Option ContactInfo := none
  location : Option Location := none
  service_details : Option ServiceDetails := none
  topic : Option String := none
  content_category : Option String := none
  publication_date : Option String := none
  publisher : Option String := none

/-- `ExtractedMetadata()`: the all-null extraction result. -/
def ExtractedMetadata.empty : ExtractedMetadata := {}

/-- All fifteen fields of an extraction result are null. -/
def allFieldsNone (m : ExtractedMetadata) : Bool :=
  m.related_service_id.isNone && m.related_resource_id.isNone &&
  m.mentioned_services.isNone && m.mentioned_organizations.isNone &&
  m.mentioned_locations.isNone && m.service_type.isNone && m.city.isNone &&
  m.neighborhood.isNone && m.contact.isNone && m.location.isNone &&
  m.service_details.isNone && m.topic.isNone && m.content_category.isNone &&
  m.publication_date.isNone && m.publisher.isNone

/-- String-typed field slot: a decoded value of any other shape (null,
number, list, object, boolean) is treated as absent. -/
def asStr : Option JValue → Option String
  | some (.vstr s) => some s
  | _ => none

/-- Integer-typed field slot. -/
def asInt : Option JValue → Option Int
  | some (.vint n) => some n
  | _ => none

/-- Element-wise string coercion of a decoded array. -/
def asStrItems : List JValue → Option (List String)
  | [] => some []
  | .vstr s :: rest => (asStrItems rest).map (s :: ·)
  | _ => none

/-- List-of-strings field slot. -/
def asStrList : Option JValue → Option (List String)
  | some (.vlist items) => asStrItems items
  | _ => none

/-- Mapping of axis name to float literal (the `coordinates` slot); JSON
numbers of either shape are accepted as floats. -/
def asFloatPairs : List (String × JValue) → Option (List (String × String))
  | [] => some []
  | (k, .vfloat lit) :: rest => (asFloatPairs rest).map ((k, lit) :: ·)
  | (k, .vint n) :: rest => (asFloatPairs rest).map ((k, toString n) :: ·)
  | _ => none

/-- Modelled from the spec: the Result Validator/Parser field-mapping step
(spec §4.2).  In the source this step is delegated to the external
PydanticOutputParser / pydantic validation libraries (not under src/); the
spec's contract is: unknown/extra keys are ignored, and a type-mismatched
field is treated as absent (null) rather than failing the whole parse.
Sub-record slot for `contact`. -/
def parseContact : JValue → Option ContactInfo
  | .vdict d =>
    some { phone := asStr (dictLookup d "phone"), email := asStr (dictLookup d "email"),
           website := asStr (dictLookup d "website") }
  | _ => none

/-- Modelled from the spec: sub-record slot for `location` (spec §3, §4.2). -/
def parseLocation : JValue → Option Location
  | .vdict d =>
    some { address := asStr (dictLookup d "address"), city := asStr (dictLookup d "city"),
           state := asStr (dictLookup d "state"), zip := asStr (dictLookup d "zip"),
           coordinates := match dictLookup d "coordinates" with
             | some (.vdict pairs) => asFloatPairs pairs
             | _ => none,
           neighborhood := asStr (dictLookup d "neighborhood") }
  | _ => none

/-- Modelled from the spec: sub-record slot for `service_details`
(spec §3, §4.2). -/
def parseServiceDetails : JValue → Option ServiceDetails
  | .vdict d =>
    some { hours := match dictLookup d "hours" with
             | some (.vdict h) => some h
             | _ => none,
           capacity := asStr (dictLookup d "capacity"),
           eligibility := asStr (dictLookup d "eligibility"),
           cost := asStr (dictLookup d "cost"),
           languages := asStrList (dictLookup d "languages"),
           accessibility := asStr (dictLookup d "accessibility") }
  | _ => none

/-- Modelled from the spec: map the fields of a decoded JSON object into an
ExtractionResult (spec §4.2) — unknown keys ignored, type-mismatched fields
absent, correctly-typed fields populated independently. -/
def mapFields (d : List (String × JValue)) : ExtractedMetadata :=
  { related_service_id := asInt (dictLookup d "related_service_id"),
    related_resource_id := asInt (dictLookup d "related_resource_id"),
    mentioned_services := asStrList (dictLookup d "mentioned_services"),
    mentioned_organizations := asStrList (dictLookup d "mentioned_organizations"),
    mentioned_locations := asStrList (dictLookup d "mentioned_locations"),
    service_type := asStr (dictLookup d "service_type"),
    city := asStr (dictLookup d "city"),
    neighborhood := asStr (dictLookup d "neighborhood"),
    contact := (dictLookup d "contact").bind parseContact,
    location := (dictLookup d "location").bind parseLocation,
    service_details := (dictLookup d "service_details").bind parseServiceDetails,
    topic := asStr (dictLookup d "topic"),
    content_category := asStr (dictLookup d "content_category"),
    publication_date := asStr (dictLookup d "publication_date"),
    publisher := asStr (dictLookup d "publisher") }

/-- Modelled from the spec: `parse(cleaned_text)` on an already-decoded
value — a non-object top level cannot be mapped and errors (which the
caller catches); an object maps leniently via `mapFields`. -/
def parse_extraction_result : JValue → Except Unit ExtractedMetadata
  | .vdict d => .ok (mapFields d)
  | _ => .error ()

/-- Outcome of the external LLM collaborator call (`self.llm.invoke`): it
either raises (network/timeout failure) or returns raw completion text. -/
inductive LLMOutcome where
  | raises : LLMOutcome
  | returns : List Char → LLMOutcome

/-- Embeds `LLMMetadataExtractor.extract` (llm_extractor.py lines 122-165):
clean the raw response, validate it as JSON (`json.loads`, an external
stdlib collaborator passed here as the decoder `decodeJson`; failure raises
`JSONDecodeError`), then parse into the typed result; the enclosing
`try/except` converts any raise anywhere in the flow — the LLM call, the
decode, or the parse — into `ExtractedMetadata()`. -/
def extract (decodeJson : List Char → Option JValue) (outcome : LLMOutcome) :
    ExtractedMetadata :=
  match outcome with
  | .raises => ExtractedMetadata.empty
  | .returns content =>
    let cleaned := clean_response content
    match decodeJson cleaned with
    | none => ExtractedMetadata.empty
    | some j =>
      match parse_extraction_result j with
      | .error _ => ExtractedMetadata.empty
      | .ok r => r

/-- C3: the extraction entry point is total (never propagates an exception:
it is a function into ExtractedMetadata) and every failure of the
clean-then-decode-then-parse flow — the LLM call raising, the cleaned text
failing JSON decode, or the parse failing — yields the empty
ExtractionResult, whose fields are all null. -/
theorem extract_failures_yield_empty
    (decodeJson : List Char → Option JValue) (content : List Char) :
    extract decodeJson .raises = ExtractedMetadata.empty ∧
    (decodeJson (clean_response content) = none →
      extract decodeJson (.returns content) = ExtractedMetadata.empty) ∧
    (∀ j, decodeJson (clean_response content) = some j →
      parse_extraction_result j = .error () →
      extract decodeJson (.returns content) = ExtractedMetadata.empty) ∧
    allFieldsNone ExtractedMetadata.empty = true := by
  refine ⟨rfl, fun h => ?_, fun j hj hp => ?_, rfl⟩
  · simp [extract, h]
  · simp [extract, hj, hp]

/-- Witness for C3: a decoder rejecting everything (malformed response) and
a decoder decoding to a non-object both produce the all-null result. -/
theorem extract_failures_yield_empty_wit :
    extract (fun _ => none) (.returns ['x']) = ExtractedMetadata.empty ∧
    extract (fun _ => some (.vint 3)) (.returns ['3']) = ExtractedMetadata.empty ∧
    allFieldsNone ExtractedMetadata.empty = true :=
  ⟨(extract_failures_yield_empty (fun _ => none) ['x']).2.1 rfl,
   (extract_failures_yield_empty (fun _ => some (.vint 3)) ['3']).2.2.1 (.vint 3) rfl rfl,
   (extract_failures_yield_empty (fun _ => none) ['x']).2.2.2⟩

/-- C5 (parser leniency, modelled from the spec since the validation step
lives in the external pydantic libraries): after a successful strict decode
to an object, a type-mismatched field (here an integer in the string-typed
`service_type` slot) is treated as absent while a correctly-typed field of
the same object (`city`) is still populated, and the whole parse still
succeeds. -/
theorem parse_leniency_type_mismatch
    (d : List (String × JValue)) (n : Int) (s : String)
    (hst : dictLookup d "service_type" = some (.vint n))
    (hc : dictLookup d "city" = some (.vstr s)) :
    parse_extraction_result (.vdict d) = .ok (mapFields d) ∧
    (mapFields d).service_type = none ∧
    (mapFields d).city = some s := by
  refine ⟨rfl, ?_, ?_⟩
  · simp [mapFields, hst, asStr]
  · simp [mapFields, hc, asStr]

/-- Witness for C5 at the object `service_type: 123, city: "SF"`. -/
theorem parse_leniency_type_mismatch_wit :
    parse_extraction_result
        (.vdict [("service_type", .vint 123), ("city", .vstr "SF")]) =
      .ok (mapFields [("service_type", .vint 123), ("city", .vstr "SF")]) ∧
    (mapFields [("service_type", .vint 123), ("city", .vstr "SF")]).service_type = none ∧
    (mapFields [("service_type", .vint 123), ("city", .vstr "SF")]).city = some "SF" :=
  parse_leniency_type_mismatch _ 123 "SF" rfl rfl

/-! ### Chunk metadata assembly (schema.py `ChunkMetadata`,
ingestion.py `_enrich_chunks` lines 182-232) -/

/-- One text chunk as produced by the loader/splitter collaborators: its
text and the two metadata entries the assembler reads
(`chunk.metadata.get('source_url')`, `chunk.metadata.get('page')`). -/
structure DocChunk where
  page_content : List Char
  metadata_source_url : Option String := none
  metadata_page : Option Int := none

/-- Number of words of `text.split()`: maximal runs of non-whitespace
(leading/trailing whitespace ignored). -/
def countWordsAux : List Char → Bool → Nat
  | [], _ => 0
  | c :: rest, inWord =>
    if pyWs c then countWordsAux rest false
    else (if inWord then 0 else 1) + countWordsAux rest true

/-- `len(text.split())`. -/
def countWords (text : List Char) : Nat := countWordsAux text false

/-- `ChunkMetadata` (schema.py lines 109-146) with its schema defaults;
`extracted_date` (a `datetime.now()` default factory) is carried as an
opaque ISO timestamp string. -/
structure ChunkMetadata where
  source_filename : String
  source_url : Option String := none
  page_number : Option Int := none
  extracted_date : String := ""
  pipeline_version : String := "1.0.0"
  document_type : String := "unknown"
  source_type : String := "brochure"
  extracted : ExtractedMetadata := {}
  chunk_index : Nat
  token_count : Nat
  keywords : Option (List String) := none
  language : String := "en"
  needs_review : Bool := false

/-- The per-chunk record built by `IngestionPipeline._enrich_chunks`
(ingestion.py lines 201-219): exactly the constructor arguments the source
passes; every other field — `pipeline_version`, `keywords`, `language` and
in particular `needs_review` — takes its schema default. -/
def enrich_chunk_metadata (source_filename : String) (chunk : DocChunk)
    (extracted : ExtractedMetadata) (i : Nat) (now : String) : ChunkMetadata :=
  { source_filename := source_filename,
    source_url := chunk.metadata_source_url,
    page_number := chunk.metadata_page,
    extracted_date := now,
    document_type := infer_document_type chunk.page_content,
    source_type := "service_info",
    extracted := extracted,
    chunk_index := i,
    token_count := countWords chunk.page_content }

/-- The claim's trigger condition: the extraction result carries mention
lists (any of the three) but no identity link (both ids null). -/
def hasMentionsWithoutLink (em : ExtractedMetadata) : Bool :=
  (em.mentioned_services.isSome || em.mentioned_organizations.isSome ||
    em.mentioned_locations.isSome) &&
  em.related_service_id.isNone && em.related_resource_id.isNone

/-- An extraction result with nonempty mention lists and no identity link. -/
def exMentionsNoLink : ExtractedMetadata :=
  { mentioned_services := some ["Food Bank"],
    mentioned_organizations := some ["Oakland Food Bank"],
    service_type := some "food" }

/-- A chunk as the splitter would hand over. -/
def exChunk : DocChunk :=
  { page_content := "Oakland Food Bank offers free groceries".toList,
    metadata_page := some 1 }

/-- Counterexample to C4: this assembled record embeds an ExtractionResult
with mention lists and no identity link, yet its `needs_review` flag is
false — the assembler never sets it. -/
theorem needs_review_claim_cex :
    hasMentionsWithoutLink exMentionsNoLink = true ∧
    (enrich_chunk_metadata "oakland_food_bank.pdf" exChunk exMentionsNoLink 0
        "2026-10-12T00:00:00").needs_review = false :=
  ⟨rfl, rfl⟩

/-- C4 as amended: in every ChunkRecord built by the assembler,
`needs_review` keeps its schema default false — the enrichment code never
sets it, even when mentions exist without an identity link. -/
theorem needs_review_always_false (source_filename : String) (chunk : DocChunk)
    (extracted : ExtractedMetadata) (i : Nat) (now : String) :
    (enrich_chunk_metadata source_filename chunk extracted i now).needs_review = false :=
  rfl

end Refuge
